import Mathlib

/-!
# Verification of the victoriametrics-importer core against its specification

Shallow embedding, in Lean 4, of the components of the
`bgp59/victoriametrics-importer` repository that the examined claims are
about, together with theorems settling those claims.

Conventions used throughout:

* Go machine integers (`int`, `int64`) are modelled as `Int`; wherever an
  overflow can change an observable outcome (`CreditReader.Seek` adds an
  arbitrary caller-supplied `int64` offset) the 64-bit wrap-around is made
  explicit with `wrap64`.  Go `uint64` statistics counters are modelled as
  `Nat`: the program increments them by small amounts, and none of the
  claims under examination is about wrap-around at `2^64`.
* `time.Duration` and `time.Time` are modelled as `Int` nanosecond counts.
  Go `%` on integers truncates toward zero, which is Lean's `Int.tmod`;
  `time.Time.Truncate` rounds *down* (floor), which is `Int.emod`
  subtraction.
* Go `float64` quantities (the compressor's estimated compression factor)
  are modelled over `ℚ`; the conversion `int(f)` for a non-negative `f` is
  the floor.
-/

namespace VmiInternal

/-! ## Rate-limit credit controller (`vmi/internal/rate_controller.go`)

Embedding of `Credit.GetCredit` (lines 157-177).  The Go code is

```
func (c *Credit) GetCredit(desired, minAcceptable int) (got int) {
    if minAcceptable == CREDIT_EXACT_MATCH ||       // CREDIT_EXACT_MATCH = 0
        minAcceptable > desired {
        minAcceptable = desired
    }
    c.cond.L.Lock()
    defer c.cond.L.Unlock()
    for c.current < minAcceptable {
        c.cond.Wait()
    }
    if c.current >= desired {
        got = desired
    } else {
        got = c.current
    }
    c.current -= got
    return
}
```

The blocking `for`/`cond.Wait` loop is embedded as the predicate
`getCreditWaiting` on the observed `current` value: the call is parked
exactly while the predicate holds.  The code the call runs once the loop
exits is `getCreditGot`/`getCreditResult`.
-/

/-- `CREDIT_EXACT_MATCH` from `rate_controller.go`. -/
def CREDIT_EXACT_MATCH : Int := 0

/-- The normalization of `minAcceptable` performed at the top of
`Credit.GetCredit`: replaced by `desired` when it equals
`CREDIT_EXACT_MATCH` (= 0) or exceeds `desired`. -/
def normMinAcceptable (desired minAcceptable : Int) : Int :=
  if minAcceptable = CREDIT_EXACT_MATCH ∨ minAcceptable > desired then desired
  else minAcceptable

/-- The `for c.current < minAcceptable { c.cond.Wait() }` loop condition of
`Credit.GetCredit`: the caller is blocked exactly while this holds. -/
def getCreditWaiting (current desired minAcceptable : Int) : Bool :=
  current < normMinAcceptable desired minAcceptable

/-- The credit granted once the wait loop of `Credit.GetCredit` exits:
`desired` if `current >= desired`, else all of `current`. -/
def getCreditGot (current desired : Int) : Int :=
  if current ≥ desired then desired else current

/-- Post-loop effect of `Credit.GetCredit`: the granted credit and the
decremented `current` (`c.current -= got`). -/
def getCreditResult (current desired : Int) : Int × Int :=
  (getCreditGot current desired, current - getCreditGot current desired)

/-- The claim's wording of the normalization ("if `min_acceptable ≤ 0` or
`min_acceptable > desired`, set `min_acceptable = desired`"), kept for
comparison with the code's `normMinAcceptable`. -/
def specNormMinAcceptable (desired minAcceptable : Int) : Int :=
  if minAcceptable ≤ 0 ∨ minAcceptable > desired then desired
  else minAcceptable

/-- After `Credit.StopReplenish`, the replenish goroutine's
`case <-ctx.Done()` branch runs `wg.Done(); return` without touching
`c.current`, so `current` thereafter changes only when some `GetCredit`
call completes its wait and decrements it.  One such completion: a caller
with a non-negative `desired` (every caller in the repository requests a
non-negative byte count — `CreditReader.Read` passes `toRead ≥ 1`) whose
wait condition does not hold takes `min(desired, current)` out of
`current`. -/
def PostStopStep (current next : Int) : Prop :=
  ∃ desired minAcceptable : Int,
    0 ≤ desired ∧
    getCreditWaiting current desired minAcceptable = false ∧
    next = (getCreditResult current desired).2

/-! ## Credit reader seek (`vmi/internal/rate_controller.go` lines 248-269) -/

/-- Two's-complement wrap of a mathematical integer into the signed 64-bit
range, matching Go's defined `int64` overflow behavior. -/
def wrap64 (x : Int) : Int :=
  (x + 2 ^ 63) % 2 ^ 64 - 2 ^ 63

/-- The fields of `CreditReader` that `Seek` reads or writes: the read
pointer `r`, the total size `n` (= `len(b)`), and the `closed` flag. -/
structure CreditReaderState where
  r : Int
  n : Int
  closed : Bool
  deriving Repr, DecidableEq

/-- The two error values of `CreditReader.Seek`
(`errCreditReaderWhence`, `errCreditReaderOffset`). -/
inductive SeekError where
  | invalidWhence
  | invalidOffset
  deriving Repr, DecidableEq

/-- `io.SeekStart`. -/
def seekStart : Int := 0
/-- `io.SeekCurrent`. -/
def seekCurrent : Int := 1
/-- `io.SeekEnd`. -/
def seekEnd : Int := 2

/-- The `newR` computed by the `switch whence` of `CreditReader.Seek`,
with `int64` additions wrapped; meaningful only for a valid `whence`. -/
def seekTarget (cr : CreditReaderState) (offset whence : Int) : Int :=
  if whence = seekCurrent then wrap64 (cr.r + offset)
  else if whence = seekStart then offset
  else wrap64 (wrap64 (cr.n - 1) + offset)

/-- Embedding of `CreditReader.Seek(offset, whence)`: returns the reported
position and the updated reader, or one of the two errors. -/
def creditReaderSeek (cr : CreditReaderState) (offset whence : Int) :
    Except SeekError (Int × CreditReaderState) :=
  if whence = seekCurrent ∨ whence = seekStart ∨ whence = seekEnd then
    let newR := seekTarget cr offset whence
    if newR < 0 ∨ newR ≥ cr.n then .error .invalidOffset
    else if cr.closed then .ok (cr.r, cr)
    else .ok (newR, { cr with r := newR })
  else .error .invalidWhence

/-! ## Worker-count computation (`NewScheduler`, `NewCompressorPool`)

`scheduler.go` lines 200-206:

```
numWorkers := schedulerCfg.NumWorkers
if numWorkers <= 0 { numWorkers = AvailableCPUCount }
if numWorkers > SCHEDULER_MAX_NUM_WORKERS { numWorkers = SCHEDULER_MAX_NUM_WORKERS }
```

`compressor_pool.go` lines 175-181 are identical with
`COMPRESSOR_POOL_MAX_NUM_COMPRESSORS` in place of the scheduler maximum.
`AvailableCPUCount` is an environment-dependent process global and enters
as the parameter `cores`.
-/

/-- `SCHEDULER_MAX_NUM_WORKERS`. -/
def SCHEDULER_MAX_NUM_WORKERS : Int := 8

/-- `COMPRESSOR_POOL_MAX_NUM_COMPRESSORS`. -/
def COMPRESSOR_POOL_MAX_NUM_COMPRESSORS : Int := 4

/-- The worker count computed by `NewScheduler` from the configured value
and `AvailableCPUCount`. -/
def newSchedulerNumWorkers (configured cores : Int) : Int :=
  let numWorkers := if configured ≤ 0 then cores else configured
  if numWorkers > SCHEDULER_MAX_NUM_WORKERS then SCHEDULER_MAX_NUM_WORKERS
  else numWorkers

/-- The compressor count computed by `NewCompressorPool` from the
configured value and `AvailableCPUCount`. -/
def newCompressorPoolNumCompressors (configured cores : Int) : Int :=
  let numCompressors := if configured ≤ 0 then cores else configured
  if numCompressors > COMPRESSOR_POOL_MAX_NUM_COMPRESSORS then
    COMPRESSOR_POOL_MAX_NUM_COMPRESSORS
  else numCompressors

/-! ## Scheduler (`scheduler.go`)

`time.Duration` values are `Int` nanoseconds.  Go's `Duration.Truncate(m)`
"rounds toward zero to a multiple of m" and returns the value unchanged
for `m <= 0`; toward-zero remainder is `Int.tmod`.  `time.Time.Truncate(d)`
"rounds down to a multiple of d since the zero time" (a floor), and
returns the time unchanged for `d <= 0`.
-/

/-- `SCHEDULER_GRANULARITY = 20 * time.Millisecond`, in nanoseconds. -/
def SCHEDULER_GRANULARITY : Int := 20000000

/-- `SCHEDULER_TASK_MIN_EXECUTION_PAUSE = 2 * SCHEDULER_GRANULARITY`. -/
def SCHEDULER_TASK_MIN_EXECUTION_PAUSE : Int := 2 * SCHEDULER_GRANULARITY

/-- Go `time.Duration.Truncate`: round toward zero to a multiple of `m`
(unchanged if `m ≤ 0`). -/
def durationTruncate (d m : Int) : Int :=
  if m ≤ 0 then d else d - d.tmod m

/-- Go `time.Time.Truncate`: round down (floor) to a multiple of `d`
(unchanged if `d ≤ 0`). -/
def timeTruncate (t d : Int) : Int :=
  if d ≤ 0 then t else t - t.emod d

/-- Embedding of `CompliantTaskInterval` (`scheduler.go` lines 264-273):
truncate to the granularity, round up when the cut part is at least half a
granule, then floor at the minimum pause. -/
def CompliantTaskInterval (interval : Int) : Int :=
  let compliantInterval := durationTruncate interval SCHEDULER_GRANULARITY
  let compliantInterval :=
    if interval - compliantInterval ≥ SCHEDULER_GRANULARITY / 2 then
      compliantInterval + SCHEDULER_GRANULARITY
    else compliantInterval
  if compliantInterval < SCHEDULER_TASK_MIN_EXECUTION_PAUSE then
    SCHEDULER_TASK_MIN_EXECUTION_PAUSE
  else compliantInterval

/-- The claim's description of the rounding: the nearest multiple of the
granularity, ties of at least half a granule rounding up.  For a positive
granule this is `⌊(d + g/2) / g⌋ · g`. -/
def specRoundNearest (d : Int) : Int :=
  SCHEDULER_GRANULARITY *
    ((d + SCHEDULER_GRANULARITY / 2).fdiv SCHEDULER_GRANULARITY)

/-- The deadline-hack loop of `Scheduler.dispatcherLoop`
(lines 334-338):

```
for nextTs.Before(task.nextTs) {
    nextTs = nextTs.Add(task.interval)
    nextTsTweaked = true
}
```

Returns the final `nextTs` together with the number of additions
performed.  The guard `0 < interval` renders in Lean the fact that the Go
loop terminates only for a positive interval (every task processed by the
dispatcher went through `AddNewTask`, which forces
`interval ≥ SCHEDULER_TASK_MIN_EXECUTION_PAUSE`). -/
def deadlineHackLoop (interval taskNextTs : Int) (nextTs : Int) : Int × Nat :=
  if h : 0 < interval ∧ nextTs < taskNextTs then
    let r := deadlineHackLoop interval taskNextTs (nextTs + interval)
    (r.1, r.2 + 1)
  else
    (nextTs, 0)
termination_by (taskNextTs - nextTs).toNat
decreasing_by omega

/-- Result of the dispatcher's `task.addedByWorker` branch: the final
`task.nextTs`, the updated deadline-hack and delayed counters, and (for
stating the claim) the number of interval additions the hack loop made. -/
structure DispatchReAddedResult where
  nextTs : Int
  hackCount : Nat
  delayedCount : Nat
  additions : Nat
  deriving Repr, DecidableEq

/-- Embedding of `Scheduler.dispatcherLoop`'s handling of a task re-added
by a worker (`scheduler.go` lines 323-367): the desired next scheduling
time is the nearest future multiple of the interval
(`timeNow.Truncate(interval).Add(interval)`); the deadline hack then adds
intervals while that time is before the task's stored `nextTs`
(incrementing `TASK_STATS_NEXT_TS_HACK_COUNT` by one if any addition was
made); finally the minimum-pause delay policy applies. -/
def dispatchReAdded (timeNow taskNextTs interval lastExecuted : Int)
    (hackCount delayedCount : Nat) : DispatchReAddedResult :=
  let nextTs0 := timeTruncate timeNow interval + interval
  let hacked := deadlineHackLoop interval taskNextTs nextTs0
  let minNextTs := lastExecuted + SCHEDULER_TASK_MIN_EXECUTION_PAUSE
  let delayed := hacked.1 < minNextTs
  { nextTs := if delayed then minNextTs else hacked.1
    hackCount := hackCount + (if hacked.2 > 0 then 1 else 0)
    delayedCount := delayedCount + (if delayed then 1 else 0)
    additions := hacked.2 }

/-! ## `HttpEndpointPool.SendBuffer` attempt classification
(`http_endpoint_pool.go` lines 816-858)

One iteration of the retry loop after an endpoint has been acquired:

```
res, err := epPool.client.Do(req)
sent := err == nil && res != nil
success := sent && HttpEndpointPoolSuccessCodes[res.StatusCode]
nonRetryable := sent && !HttpEndpointPoolRetryCodes[res.StatusCode]
epStats[HTTP_ENDPOINT_STATS_SEND_BUFFER_COUNT] += 1
if sent { epStats[...BYTE_COUNT] += uint64(len(b)) }
if !success { epStats[...ERROR_COUNT] += 1 }
if success { return nil }
if nonRetryable { return error(status) }
epPool.ReportError(ep)   // and continue with the next attempt
```
-/

/-- `HttpEndpointPoolSuccessCodes`: `http.StatusOK` (200) and
`http.StatusNoContent` (204). -/
def HttpEndpointPoolSuccessCodes (code : Int) : Bool :=
  code = 200 ∨ code = 204

/-- `HttpEndpointPoolRetryCodes`: the empty map (every lookup yields
`false`). -/
def HttpEndpointPoolRetryCodes (_code : Int) : Bool := false

/-- The outcome of `epPool.client.Do(req)`: the error (if any) and the
response's status code (if a response came back). -/
structure DoOutcome where
  err : Bool
  res : Option Int
  deriving Repr, DecidableEq

/-- The per-endpoint statistics touched by a `SendBuffer` attempt
(`uint64` counters, modelled as `Nat`). -/
structure EndpointSendStats where
  sendCount : Nat
  sendByteCount : Nat
  sendErrorCount : Nat
  deriving Repr, DecidableEq

/-- How one `SendBuffer` attempt ends: return `nil`; return a
status-bearing error; or report the endpoint error and retry the loop. -/
inductive AttemptOutcome where
  | success
  | statusError (status : Int)
  | reportErrorAndRetry
  deriving Repr, DecidableEq

/-- Embedding of one `SendBuffer` attempt against an endpoint: the
classification and statistics update quoted above, for a buffer of
`bLen` bytes. -/
def sendBufferAttempt (bLen : Nat) (d : DoOutcome) (st : EndpointSendStats) :
    AttemptOutcome × EndpointSendStats :=
  let sent := !d.err && d.res.isSome
  let success := sent && match d.res with
    | some status => HttpEndpointPoolSuccessCodes status
    | none => false
  let nonRetryable := sent && match d.res with
    | some status => !HttpEndpointPoolRetryCodes status
    | none => false
  let st :=
    { sendCount := st.sendCount + 1
      sendByteCount := st.sendByteCount + (if sent then bLen else 0)
      sendErrorCount := st.sendErrorCount + (if success then 0 else 1) }
  if success then
    (.success, st)
  else if nonRetryable then
    (.statusError (d.res.getD 0), st)
  else
    (.reportErrorAndRetry, st)

/-! ## Generator base (`generator_base.go` lines 83-102)

Byte buffers are modelled as `String`s.  The prebuilt `DtimeMetric`
prefix (assembled once by `GenBaseInit` from the instance, hostname and id
labels) is carried in the state.  Timestamps are `Int` nanoseconds;
`time.Time.UnixMilli` is the floor division by `10^6`.

`strconv.FormatFloat(dtime, 'f', 6, 64)` renders the elapsed seconds with
`METRICS_GENERATOR_DTIME_METRIC_PRECISION = 6` decimals; `formatSeconds6`
reproduces it in exact integer arithmetic (rounding the nanosecond delta
to microseconds), the real-arithmetic idealization of the `float64`
rendering. -/

/-- `time.Time.UnixMilli` for a time of `t` nanoseconds. -/
def unixMilli (t : Int) : Int := t.fdiv 1000000

/-- The `" %d\n"` timestamp suffix written into `TsSuffixBuf` by
`GenBaseMetricsStart` (space before, newline after). -/
def tsSuffix (ts : Int) : String := " " ++ toString (unixMilli ts) ++ "\n"

/-- Six zero-padded decimal digits of `frac < 10^6`. -/
def padSixDigits (frac : Nat) : String :=
  (toString (1000000 + frac)).drop 1

/-- The dtime value: `deltaNs` nanoseconds as seconds with six decimals
(`FormatFloat(..., 'f', 6, 64)`), idealized to exact arithmetic. -/
def formatSeconds6 (deltaNs : Int) : String :=
  let sign := if deltaNs < 0 then "-" else ""
  let us := (deltaNs.natAbs + 500) / 1000
  sign ++ toString (us / 1000000) ++ "." ++ padSixDigits (us % 1000000)

/-- The `GeneratorBase` fields read or written by `GenBaseMetricsStart`:
the last-generation timestamp, the reusable timestamp-suffix buffer, and
the prebuilt dtime metric prefix. -/
structure GeneratorBaseState where
  lastTs : Int
  tsSuffixBuf : String
  dtimeMetric : String
  deriving Repr, DecidableEq

/-- The outputs of `GenBaseMetricsStart`: the updated state, the appended
buffer, and the returned `(metricsCount, lastTs)` pair. -/
structure GenBaseStartResult where
  state : GeneratorBaseState
  buf : Option String
  metricsCount : Nat
  returnedLastTs : Int
  deriving Repr, DecidableEq

/-- Embedding of `GeneratorBase.GenBaseMetricsStart(buf, ts)`: detect a
previous run by `TsSuffixBuf.Len() > 0`, rebuild the suffix for `ts`,
append the dtime metric line when a previous run exists and `buf` is
non-nil, and update `LastTs`, returning the previous value. -/
def genBaseMetricsStart (gb : GeneratorBaseState) (buf : Option String)
    (ts : Int) : GenBaseStartResult :=
  let validPrev := gb.tsSuffixBuf.length > 0
  let newSuffix := tsSuffix ts
  let (buf, metricsCount) :=
    match buf with
    | some b =>
      if validPrev then
        (some (b ++ gb.dtimeMetric ++ formatSeconds6 (ts - gb.lastTs)
            ++ newSuffix), 1)
      else (some b, 0)
    | none => (none, 0)
  { state := { gb with tsSuffixBuf := newSuffix, lastTs := ts }
    buf := buf
    metricsCount := metricsCount
    returnedLastTs := gb.lastTs }

/-! ## Endpoint pool healthy-list / health-probe state machine
(`http_endpoint_pool.go`: `ReportError` lines 639-688, `MoveToHealthy`
lines 690-705, `HealthCheck` lines 549-637, `Shutdown` lines 862-887)

Endpoints are identified by `Nat` (object identity, not URL — the pool may
hold several endpoints with equal URLs).  The doubly-linked healthy list is
abstracted to the `List` of identities in list order; `Remove` is
`List.erase` and `AddToTail` is appending.  `probes i` counts the live
`HealthCheck` goroutines owning endpoint `i`. -/

/-- The per-endpoint fields `ReportError`/`MoveToHealthy` touch. -/
structure EndpointState where
  healthy : Bool
  numErrors : Nat
  markUnhealthyThreshold : Nat
  deriving Repr, DecidableEq

/-- The pool state the healthy-list invariant is about. -/
structure PoolState where
  eps : Nat → EndpointState
  healthyList : List Nat
  probes : Nat → Nat
  shutdown : Bool

/-- Embedding of `HttpEndpointPool.ReportError(ep)`: increment the error
count; return if already unhealthy; below threshold rotate to the tail
when the list has more than one member; at or above threshold remove from
the healthy list, mark unhealthy, and spawn a `HealthCheck` goroutine —
but only when the pool is not shutting down. -/
def reportErrorOp (p : PoolState) (i : Nat) : PoolState :=
  let e := p.eps i
  let e := { e with numErrors := e.numErrors + 1 }
  let p := { p with eps := Function.update p.eps i e }
  if ¬e.healthy then p
  else if e.numErrors < e.markUnhealthyThreshold then
    if 2 ≤ p.healthyList.length then
      { p with healthyList := p.healthyList.erase i ++ [i] }
    else p
  else
    let p := { p with
      healthyList := p.healthyList.erase i
      eps := Function.update p.eps i { e with healthy := false } }
    if ¬p.shutdown then
      { p with probes := Function.update p.probes i (p.probes i + 1) }
    else p

/-- Embedding of `HttpEndpointPool.MoveToHealthy(ep)`: return if already
healthy, else reset the error count, mark healthy and append at the tail
of the healthy list. -/
def moveToHealthyOp (p : PoolState) (i : Nat) : PoolState :=
  let e := p.eps i
  if e.healthy then p
  else
    { p with
      eps := Function.update p.eps i { e with healthy := true, numErrors := 0 }
      healthyList := p.healthyList ++ [i] }

/-- A `HealthCheck` goroutine whose probe succeeded (HTTP 200/204): it
calls `MoveToHealthy` and terminates, releasing its ownership of the
endpoint. -/
def probeSuccessOp (p : PoolState) (i : Nat) : PoolState :=
  let p := moveToHealthyOp p i
  { p with probes := Function.update p.probes i (p.probes i - 1) }

/-- The `epPool.shutdown = true` assignment of
`HttpEndpointPool.Shutdown` (the cancellation and joining of the probe
goroutines that follows it is not needed for the states examined here). -/
def shutdownOp (p : PoolState) : PoolState :=
  { p with shutdown := true }

/-- A pool with no healthy endpoints, no probes, every endpoint in its
initial record state (`NewHttpEndpoint`: not healthy, zero errors), with
per-endpoint thresholds `thr`. -/
def emptyPool (thr : Nat → Nat) : PoolState :=
  { eps := fun i =>
      { healthy := false, numErrors := 0, markUnhealthyThreshold := thr i }
    healthyList := []
    probes := fun _ => 0
    shutdown := false }

/-- The pool `NewHttpEndpointPool` builds for the endpoint identities `D`:
every endpoint is added with `MoveToHealthy`. -/
def initPool (thr : Nat → Nat) (D : List Nat) : PoolState :=
  D.foldl moveToHealthyOp (emptyPool thr)

/-- The operations that touch the healthy list or the probe ownership
while the pool is running (not shut down): `ReportError` on a pool
endpoint, and a probe round on an endpoint owned by a live `HealthCheck`
goroutine (which either succeeds and terminates, or fails and leaves the
state unchanged). -/
inductive PoolReach (thr : Nat → Nat) (D : List Nat) : PoolState → Prop where
  | init : PoolReach thr D (initPool thr D)
  | reportError {p : PoolState} (i : Nat) (hi : i ∈ D)
      (hp : PoolReach thr D p) : PoolReach thr D (reportErrorOp p i)
  | probeSuccess {p : PoolState} (i : Nat) (hi : i ∈ D)
      (hlive : p.probes i = 1) (hp : PoolReach thr D p) :
      PoolReach thr D (probeSuccessOp p i)

/-- The claimed invariant for one endpoint: on the healthy list with no
probe owner, or off the list with exactly one probe owner — never both,
never neither. -/
def HealthyXorProbed (p : PoolState) (i : Nat) : Prop :=
  (i ∈ p.healthyList ∧ p.probes i = 0) ∨
  (i ∉ p.healthyList ∧ p.probes i = 1)

/-- The auxiliary well-formedness the induction carries: the healthy list
has no duplicates and lists exactly the endpoints whose `healthy` flag is
set, membership is confined to the pool's endpoints, and each pool
endpoint satisfies `HealthyXorProbed`. -/
structure PoolWF (D : List Nat) (p : PoolState) : Prop where
  nodup : p.healthyList.Nodup
  mem_iff : ∀ i, i ∈ p.healthyList ↔ (p.eps i).healthy = true
  mem_sub : ∀ i ∈ p.healthyList, i ∈ D
  not_shutdown : p.shutdown = false
  xor_inv : ∀ i ∈ D, HealthyXorProbed p i
  probes_outside : ∀ i, i ∉ D → p.probes i = 0

/-! ## Compressor loop (`compressor_pool.go` lines 267-400)

One compressor's `loop` is embedded as a step function over its local
state, driven by the events its `select` can observe: a buffer received
from the metrics queue (with the possibility that the `gzWriter.Write`
fails), the queue being closed, or the flush timer firing.  The quantities
the environment supplies at a batch close — the compressed size
`gzBuf.Len()` and whether `sender.SendBuffer` errors — enter as the
oracle arguments `gzLen` and `sendErr`.  The `float64` compression
factor is carried over `ℚ`; Go's `int(f)` conversion (truncation toward
zero) is `ratTruncToInt`. -/

/-- `COMPRESSION_FACTOR_EXP_DECAY_ALPHA = 0.8`. -/
def COMPRESSION_FACTOR_EXP_DECAY_ALPHA : ℚ := 0.8

/-- `INITIAL_COMPRESSION_FACTOR = 2.`. -/
def INITIAL_COMPRESSION_FACTOR : ℚ := 2

/-- `COMPRESSED_BATCH_MIN_SIZE_FOR_CF = 128`. -/
def COMPRESSED_BATCH_MIN_SIZE_FOR_CF : Nat := 128

/-- Go `int(f)` for a `float64`: truncation toward zero. -/
def ratTruncToInt (q : ℚ) : Int :=
  if q < 0 then -⌊-q⌋ else ⌊q⌋

/-- The compressor-pool configuration a running compressor reads:
the batch target size and whether a flush interval is configured
(`flushInterval > 0`; the timer is only armed in that case). -/
structure CompressorConfig where
  batchTargetSize : Int
  flushIntervalPos : Bool
  deriving Repr, DecidableEq

/-- One compressor's statistics slots (`uint64` counters as `Nat`, the
compression factor as the idealized `ℚ`). -/
structure CompressorLoopStats where
  readCount : Nat
  readByteCount : Nat
  sendCount : Nat
  sendByteCount : Nat
  timeoutFlushCount : Nat
  sendErrorCount : Nat
  writeErrorCount : Nat
  compressionFactor : ℚ
  deriving Repr, DecidableEq

/-- The local state of `CompressorPool.loop` between `select` rounds. -/
structure CompressorState where
  batchReadCount : Nat
  batchReadByteCount : Nat
  batchTimeoutCount : Nat
  timerSet : Bool
  gzWriterLive : Bool
  estimatedCF : ℚ
  batchReadByteLimit : Int
  isOpen : Bool
  stats : CompressorLoopStats
  deriving Repr, DecidableEq

/-- The events the compressor `select` can observe. -/
inductive CompressorEvent where
  | recv (bufLen : Nat) (writeErr : Bool)
  | closed
  | timerFire
  deriving Repr, DecidableEq

/-- The state just before a compressor's first `select`: both the
estimated compression factor (`2.0`, or `1.0` for `gzip.NoCompression`)
and the derived byte limit `int(float64(batchTargetSize) * estimatedCF)`
initialized, empty batch, stopped timer. -/
def compressorInit (cfg : CompressorConfig) (noCompression : Bool)
    (stats : CompressorLoopStats) : CompressorState :=
  let estimatedCF := if noCompression then 1 else INITIAL_COMPRESSION_FACTOR
  { batchReadCount := 0
    batchReadByteCount := 0
    batchTimeoutCount := 0
    timerSet := false
    gzWriterLive := false
    estimatedCF := estimatedCF
    batchReadByteLimit := ratTruncToInt ((cfg.batchTargetSize : ℚ) * estimatedCF)
    isOpen := true
    stats := stats }

/-- One round of `CompressorPool.loop`'s `for`/`select`: process the
event, then, when `doSend` is set, close the gzip writer, update the
compression factor (for a compressed size of at least
`COMPRESSED_BATCH_MIN_SIZE_FOR_CF`), hand the batch to the sender, update
the statistics and reset the batch.  The second component reports whether
this round closed and submitted a batch. -/
def compressorStep (cfg : CompressorConfig) (s : CompressorState)
    (e : CompressorEvent) (gzLen : Nat) (sendErr : Bool) :
    CompressorState × Bool :=
  let afterEvent : CompressorState × Bool :=
    match e with
    | .recv bufLen writeErr =>
      let s :=
        if 0 < bufLen then
          let s :=
            if s.batchReadCount = 0 then
              -- first read of the batch: reset gzBuf, create or repurpose
              -- the gzip writer, arm the flush timer if configured
              { s with gzWriterLive := true, timerSet := cfg.flushIntervalPos }
            else s
          let s := { s with
            batchReadCount := s.batchReadCount + 1
            batchReadByteCount := s.batchReadByteCount + bufLen }
          if writeErr then
            { s with
              batchReadCount := 0, batchReadByteCount := 0
              batchTimeoutCount := 0, timerSet := false
              gzWriterLive := false
              stats := { s.stats with
                writeErrorCount := s.stats.writeErrorCount + 1 } }
          else s
        else s
      -- doSend = !isOpen && batchReadByteCount > 0 ||
      --          batchReadByteCount >= batchReadByteLimit
      (s, decide (s.batchReadByteLimit ≤ (s.batchReadByteCount : Int)))
    | .closed =>
      let s := { s with isOpen := false }
      (s, decide (0 < s.batchReadByteCount ∨
        s.batchReadByteLimit ≤ (s.batchReadByteCount : Int)))
    | .timerFire =>
      ({ s with batchTimeoutCount := 1, timerSet := false }, true)
  let s := afterEvent.1
  if afterEvent.2 then
    let s := { s with timerSet := false }  -- stop and drain the timer
    let batchSentByteCount := gzLen        -- gzWriter.Close(); gzBuf.Len()
    let s :=
      if COMPRESSED_BATCH_MIN_SIZE_FOR_CF ≤ batchSentByteCount then
        let batchCF : ℚ :=
          (s.batchReadByteCount : ℚ) / (batchSentByteCount : ℚ)
        let cf := (1 - COMPRESSION_FACTOR_EXP_DECAY_ALPHA) * batchCF +
          COMPRESSION_FACTOR_EXP_DECAY_ALPHA * s.estimatedCF
        { s with
          estimatedCF := cf
          batchReadByteLimit := ratTruncToInt ((cfg.batchTargetSize : ℚ) * cf) }
      else s
    let sentBytes := if sendErr then 0 else batchSentByteCount
    let sentErrs := if sendErr then 1 else 0
    let stats := { s.stats with
      readCount := s.stats.readCount + s.batchReadCount
      readByteCount := s.stats.readByteCount + s.batchReadByteCount
      sendCount := s.stats.sendCount + 1
      sendByteCount := s.stats.sendByteCount + sentBytes
      timeoutFlushCount := s.stats.timeoutFlushCount + s.batchTimeoutCount
      sendErrorCount := s.stats.sendErrorCount + sentErrs
      compressionFactor := s.estimatedCF }
    ({ s with
      stats := stats
      batchReadCount := 0, batchReadByteCount := 0
      batchTimeoutCount := 0 }, true)
  else (s, false)

/-! ## Theorems -/

/-- Go's `%` (truncated remainder, `Int.tmod`) in terms of the Euclidean
remainder, for either sign of the numerator. -/
theorem tmod_char (d g : Int) (hg : 0 ≤ g) :
    d.tmod g = if 0 ≤ d then d % g else -((-d) % g) := by
  cases d with
  | ofNat n =>
    rw [if_pos (Int.zero_le_ofNat n),
      Int.tmod_eq_emod (Int.zero_le_ofNat n) hg]
  | negSucc m =>
    rw [if_neg (by simp [Int.negSucc_not_nonneg])]
    cases g with
    | ofNat k =>
      show -Int.ofNat (m.succ % k) = _
      have : -Int.negSucc m = Int.ofNat m.succ := rfl
      rw [this]
      push_cast [Int.ofNat_eq_natCast]
      omega
    | negSucc k => exact absurd hg (by simp [Int.negSucc_not_nonneg])

/-- C4 counterexample: with 10 workers configured on a 2-core host the
scheduler builds a pool of 8 workers and the compressor pool 4
compressors, not the claimed `min(configured, cores, MAX)` = 2. -/
theorem numWorkers_not_min_with_cores :
    ¬(newSchedulerNumWorkers 10 2 =
        min 10 (min 2 SCHEDULER_MAX_NUM_WORKERS) ∧
      newCompressorPoolNumCompressors 10 2 =
        min 10 (min 2 COMPRESSOR_POOL_MAX_NUM_COMPRESSORS)) := by
  decide

/-- C4 (amended): the scheduler's worker-pool size is
`min(configured, 8)` for a positive configured value and `min(cores, 8)`
otherwise, and likewise the compressor count with maximum 4 — the
available core count enters only as the fallback for a non-positive
configured value, never as a general cap. -/
theorem numWorkers_formula (configured cores : Int) :
    newSchedulerNumWorkers configured cores =
      min (if 0 < configured then configured else cores)
        SCHEDULER_MAX_NUM_WORKERS ∧
    newCompressorPoolNumCompressors configured cores =
      min (if 0 < configured then configured else cores)
        COMPRESSOR_POOL_MAX_NUM_COMPRESSORS := by
  unfold newSchedulerNumWorkers newCompressorPoolNumCompressors
    SCHEDULER_MAX_NUM_WORKERS COMPRESSOR_POOL_MAX_NUM_COMPRESSORS
  dsimp only
  constructor <;> (split_ifs <;> omega)

/-- C7: the interval the scheduler actually uses, as computed by
`CompliantTaskInterval` and applied by `AddNewTask`, is the requested
interval rounded to the nearest multiple of the 20 ms granularity (a cut
part of at least half a granule rounding up), floored at the 40 ms
minimum pause. -/
theorem compliantTaskInterval_round_floor (d : Int) :
    CompliantTaskInterval d =
      max SCHEDULER_TASK_MIN_EXECUTION_PAUSE (specRoundNearest d) := by
  unfold CompliantTaskInterval specRoundNearest durationTruncate
    SCHEDULER_TASK_MIN_EXECUTION_PAUSE SCHEDULER_GRANULARITY
  dsimp only
  rw [Int.fdiv_eq_ediv _ (by norm_num), if_neg (by norm_num : ¬((20000000 : Int) ≤ 0)),
    tmod_char d 20000000 (by norm_num), max_def]
  rcases le_or_lt 0 d with h | h
  · rw [if_pos h]
    split_ifs <;> omega
  · rw [if_neg (not_le.mpr h)]
    split_ifs <;> omega

/-- C5 counterexample: at `current = 0`, the call
`GetCredit(desired = 5, minAcceptable = -1)` does not pass through the
normalization (the code tests `minAcceptable == 0`, not `≤ 0`), is not
blocked by the wait loop, and returns 0 — whereas the claim's
normalization (`specNormMinAcceptable`) would set `min_acceptable = 5`
and block while `current < 5`. -/
theorem getCredit_negMinAcceptable_counterexample :
    normMinAcceptable 5 (-1) = -1 ∧
    specNormMinAcceptable 5 (-1) = 5 ∧
    getCreditWaiting 0 5 (-1) = false ∧
    getCreditResult 0 5 = (0, 0) := by
  decide

/-- C5 (amended): `Credit.GetCredit` treats `min_acceptable` as `desired`
when it equals 0 (`CREDIT_EXACT_MATCH`) or exceeds `desired` — a negative
`min_acceptable` is left as-is (and then never blocks); the wait loop
parks the caller exactly while `current` is below the normalized
`min_acceptable`; and once past the loop the call returns
`min(desired, current)` and decrements `current` by exactly the returned
amount. -/
theorem getCredit_result_spec (current desired minAcceptable : Int)
    (h : getCreditWaiting current desired minAcceptable = false) :
    (getCreditResult current desired).1 = min desired current ∧
    (getCreditResult current desired).2 =
      current - (getCreditResult current desired).1 ∧
    ((minAcceptable = 0 ∨ desired < minAcceptable) →
      normMinAcceptable desired minAcceptable = desired) ∧
    (minAcceptable < 0 → minAcceptable ≤ desired →
      normMinAcceptable desired minAcceptable = minAcceptable) ∧
    normMinAcceptable desired minAcceptable ≤ current := by
  unfold getCreditWaiting at h
  unfold getCreditResult getCreditGot normMinAcceptable CREDIT_EXACT_MATCH at *
  simp only [decide_eq_false_iff_not, not_lt] at h
  refine ⟨?_, ?_, ?_, ?_, h⟩
  · split_ifs <;> omega
  · omega
  · intro hc
    split_ifs with hs
    · rfl
    · exact absurd hc (by push_neg; constructor <;> omega)
  · intro hc hc2
    rw [if_neg (by omega)]

/-- C5 witness: `GetCredit(5, 2)` at `current = 7` is past the wait loop
and the amended description applies there. -/
theorem getCredit_result_spec_witness :
    (getCreditResult 7 5).1 = min 5 7 ∧
    (getCreditResult 7 5).2 = 7 - (getCreditResult 7 5).1 ∧
    (((2 : Int) = 0 ∨ (5 : Int) < 2) → normMinAcceptable 5 2 = 5) ∧
    ((2 : Int) < 0 → (2 : Int) ≤ 5 → normMinAcceptable 5 2 = 2) ∧
    normMinAcceptable 5 2 ≤ 7 :=
  getCredit_result_spec 7 5 2 (by decide)

/-- C2 (the code against the claimed shutdown semantics): the
`vmi/internal/rate_controller.go` wait loop has no shutdown escape.  On
the repository's own `TestCreditStop` input — `NewCredit(100, 100, ...)`
stopped immediately, so `current = 100`, followed by
`GetCredit(10000, CREDIT_EXACT_MATCH)` — the wait condition holds and
keeps holding in every state reachable once replenishment has stopped
(the stopped replenisher never touches `current` again, and any other
completing `GetCredit` caller only decreases it), so the call blocks
forever instead of returning `desired`. -/
theorem getCredit_blocks_after_stop (current' : Int)
    (h : Relation.ReflTransGen PostStopStep 100 current') :
    getCreditWaiting current' 10000 0 = true := by
  have key : current' ≤ 100 := by
    induction h with
    | refl => exact le_refl _
    | tail _ hbc ih =>
      obtain ⟨desired, minAcceptable, hd, _, rfl⟩ := hbc
      unfold getCreditResult getCreditGot
      dsimp only
      split_ifs <;> omega
  unfold getCreditWaiting
  rw [show normMinAcceptable 10000 0 = 10000 from by decide]
  simp only [decide_eq_true_iff]
  omega

/-- C2 witness: the blocked state itself (no post-stop steps taken). -/
theorem getCredit_blocks_after_stop_witness :
    getCreditWaiting 100 10000 0 = true :=
  getCredit_blocks_after_stop 100 Relation.ReflTransGen.refl

/-- `wrap64` is the identity on the signed 64-bit range. -/
theorem wrap64_eq_self {x : Int} (hlo : -(2 ^ 63) ≤ x) (hhi : x < 2 ^ 63) :
    wrap64 x = x := by
  unfold wrap64
  rw [Int.emod_eq_of_lt (by omega) (by omega)]
  omega

/-- C10: for a `CreditReader` over `n` bytes (read pointer within
bounds), `Seek(offset, whence)`:
(a) errors exactly when `whence` is invalid or the computed target is
negative or at least `n`;
(b) with `whence = SeekEnd` the target is `n - 1 + offset`, so
`Seek(0, SeekEnd)` on an open reader positions at the last byte;
(c) no successful `Seek` moves the read position to the end-of-data
position `n`;
(d) on a closed reader a `Seek` with a valid target leaves the read
position unchanged and returns the current position instead of the
target. -/
theorem creditReaderSeek_spec (cr : CreditReaderState) (offset whence : Int)
    (h0 : 0 ≤ cr.r) (h1 : cr.r ≤ cr.n) (h2 : cr.n < 2 ^ 63) :
    ((creditReaderSeek cr offset whence).isOk = false ↔
      (¬(whence = seekCurrent ∨ whence = seekStart ∨ whence = seekEnd) ∨
        seekTarget cr offset whence < 0 ∨
        cr.n ≤ seekTarget cr offset whence)) ∧
    (cr.closed = false → 0 < cr.n →
      creditReaderSeek cr 0 seekEnd =
        .ok (cr.n - 1, { cr with r := cr.n - 1 })) ∧
    (∀ p cr', creditReaderSeek cr offset whence = .ok (p, cr') →
      cr'.r < cr.n ∨ cr'.r = cr.r) ∧
    (cr.closed = true →
      ∀ p cr', creditReaderSeek cr offset whence = .ok (p, cr') →
        cr' = cr ∧ p = cr.r) := by
  refine ⟨?_, ?_, ?_, ?_⟩
  · unfold creditReaderSeek
    by_cases hvw : whence = seekCurrent ∨ whence = seekStart ∨ whence = seekEnd
    · rw [if_pos hvw]
      by_cases hrange : seekTarget cr offset whence < 0 ∨
          seekTarget cr offset whence ≥ cr.n
      · rw [if_pos hrange]
        exact ⟨fun _ => Or.inr (by simpa [ge_iff_le] using hrange),
          fun _ => rfl⟩
      · rw [if_neg hrange]
        push_neg at hrange
        by_cases hcl : cr.closed = true
        · rw [if_pos hcl]
          simp only [Except.isOk, Except.toBool, Bool.true_eq_false,
            false_iff]
          push_neg
          exact ⟨hvw, by omega, by omega⟩
        · rw [if_neg hcl]
          simp only [Except.isOk, Except.toBool, Bool.true_eq_false,
            false_iff]
          push_neg
          exact ⟨hvw, by omega, by omega⟩
    · rw [if_neg hvw]
      simp only [Except.isOk, Except.toBool, true_iff]
      exact Or.inl hvw
  · intro hcl hn
    have ht : seekTarget cr 0 seekEnd = cr.n - 1 := by
      unfold seekTarget
      rw [if_neg (show ¬(seekEnd = seekCurrent) by decide),
        if_neg (show ¬(seekEnd = seekStart) by decide), add_zero,
        @wrap64_eq_self (cr.n - 1) (by omega) (by omega),
        wrap64_eq_self (by omega) (by omega)]
    unfold creditReaderSeek
    rw [if_pos (Or.inr (Or.inr rfl)), ht, if_neg (by omega)]
    simp [hcl]
  · intro p cr' hok
    unfold creditReaderSeek at hok
    by_cases hvw : whence = seekCurrent ∨ whence = seekStart ∨ whence = seekEnd
    · rw [if_pos hvw] at hok
      by_cases hrange : seekTarget cr offset whence < 0 ∨
          seekTarget cr offset whence ≥ cr.n
      · rw [if_pos hrange] at hok
        exact absurd hok (by simp)
      · rw [if_neg hrange] at hok
        push_neg at hrange
        by_cases hcl : cr.closed = true
        · rw [if_pos hcl] at hok
          simp only [Except.ok.injEq, Prod.mk.injEq] at hok
          right
          rw [← hok.2]
        · rw [if_neg hcl] at hok
          simp only [Except.ok.injEq, Prod.mk.injEq] at hok
          left
          rw [← hok.2]
          show seekTarget cr offset whence < cr.n
          omega
    · rw [if_neg hvw] at hok
      exact absurd hok (by simp)
  · intro hcl p cr' hok
    unfold creditReaderSeek at hok
    by_cases hvw : whence = seekCurrent ∨ whence = seekStart ∨ whence = seekEnd
    · rw [if_pos hvw] at hok
      by_cases hrange : seekTarget cr offset whence < 0 ∨
          seekTarget cr offset whence ≥ cr.n
      · rw [if_pos hrange] at hok
        exact absurd hok (by simp)
      · rw [if_neg hrange, if_pos hcl] at hok
        simp only [Except.ok.injEq, Prod.mk.injEq] at hok
        exact ⟨hok.2.symm, hok.1.symm⟩
    · rw [if_neg hvw] at hok
      exact absurd hok (by simp)

/-- C10 witness: the seek specification applied to a reader over 5 bytes
at position 2, for `Seek(1, SeekCurrent)`. -/
theorem creditReaderSeek_spec_witness :
    ((creditReaderSeek ⟨2, 5, false⟩ 1 seekCurrent).isOk = false ↔
      (¬(seekCurrent = seekCurrent ∨ seekCurrent = seekStart ∨
          seekCurrent = seekEnd) ∨
        seekTarget ⟨2, 5, false⟩ 1 seekCurrent < 0 ∨
        (5 : Int) ≤ seekTarget ⟨2, 5, false⟩ 1 seekCurrent)) ∧
    (false = false → (0 : Int) < 5 →
      creditReaderSeek ⟨2, 5, false⟩ 0 seekEnd = .ok (4, ⟨4, 5, false⟩)) ∧
    (∀ p cr', creditReaderSeek ⟨2, 5, false⟩ 1 seekCurrent = .ok (p, cr') →
      cr'.r < 5 ∨ cr'.r = 2) ∧
    (false = true →
      ∀ p cr', creditReaderSeek ⟨2, 5, false⟩ 1 seekCurrent = .ok (p, cr') →
        cr' = ⟨2, 5, false⟩ ∧ p = 2) :=
  creditReaderSeek_spec ⟨2, 5, false⟩ 1 seekCurrent (by decide) (by decide)
    (by decide)

/-- C1 counterexample: an attempt whose response has status 500 (a
non-success status) still increases the endpoint's send byte count by
`len(b)` — the code adds the bytes whenever a response was received
(`sent`), not only on success as claimed. -/
theorem sendBufferAttempt_bytes_counterexample :
    (sendBufferAttempt 7 ⟨false, some 500⟩ ⟨0, 0, 0⟩).2.sendByteCount = 7 ∧
    (sendBufferAttempt 7 ⟨false, some 500⟩ ⟨0, 0, 0⟩).1 ≠ .success := by
  decide

/-- C1 (amended): per `SendBuffer` attempt — a response with status in
{200, 204} returns `nil`; a response with any other status returns a
status-bearing error (the retry set being empty); no response reports the
endpoint error and retries; the endpoint's send count is incremented on
every attempt, the send byte count increases by `len(b)` whenever a
response was received (any status, not only success), and the send-error
count is incremented exactly on non-success. -/
theorem sendBufferAttempt_spec (bLen : Nat) (d : DoOutcome)
    (st : EndpointSendStats) :
    ((sendBufferAttempt bLen d st).1 = .success ↔
      d.err = false ∧ (d.res = some 200 ∨ d.res = some 204)) ∧
    ((sendBufferAttempt bLen d st).1 = .reportErrorAndRetry ↔
      (d.err = true ∨ d.res = none)) ∧
    (∀ s : Int, (sendBufferAttempt bLen d st).1 = .statusError s →
      d.err = false ∧ d.res = some s ∧ ¬(s = 200 ∨ s = 204)) ∧
    (sendBufferAttempt bLen d st).2.sendCount = st.sendCount + 1 ∧
    (sendBufferAttempt bLen d st).2.sendByteCount = st.sendByteCount +
      (if d.err = false ∧ d.res.isSome = true then bLen else 0) ∧
    (sendBufferAttempt bLen d st).2.sendErrorCount = st.sendErrorCount +
      (if (sendBufferAttempt bLen d st).1 = .success then 0 else 1) := by
  obtain ⟨err, res⟩ := d
  cases err <;> rcases res with _ | s
  · simp [sendBufferAttempt]
  · by_cases hs : s = 200 ∨ s = 204
    · rcases hs with hs | hs <;> subst hs <;>
        simp [sendBufferAttempt, HttpEndpointPoolSuccessCodes]
    · have h200 : ¬s = 200 := fun h => hs (Or.inl h)
      have h204 : ¬s = 204 := fun h => hs (Or.inr h)
      have hstep : sendBufferAttempt bLen ⟨false, some s⟩ st =
          (.statusError s,
            ⟨st.sendCount + 1, st.sendByteCount + bLen,
              st.sendErrorCount + 1⟩) := by
        simp [sendBufferAttempt, HttpEndpointPoolSuccessCodes,
          HttpEndpointPoolRetryCodes, h200, h204]
      rw [hstep]
      refine ⟨by simp [h200, h204], by simp, ?_, rfl, by simp, by simp⟩
      intro s' hinj
      simp only [AttemptOutcome.statusError.injEq] at hinj
      subst hinj
      exact ⟨rfl, rfl, hs⟩
  · simp [sendBufferAttempt]
  · simp [sendBufferAttempt]

/-- A string has length zero exactly when it is empty. -/
theorem string_length_eq_zero_iff (s : String) : s.length = 0 ↔ s = "" := by
  constructor
  · intro h
    cases s with
    | mk data =>
      simp [String.length] at h
      simp [h]
  · rintro rfl
    rfl

/-- C8: `GenBaseMetricsStart(some buf, ts)` appends the dtime metric line
(prebuilt prefix, elapsed seconds since the previous `last_ts`, then the
`" <ts_millis>\n"` suffix) exactly when a previous run exists (non-empty
timestamp-suffix buffer); in every case the suffix buffer is rebuilt for
`ts` and `last_ts` becomes `ts`, the previous `last_ts` being returned. -/
theorem genBaseMetricsStart_spec (gb : GeneratorBaseState) (b : String)
    (ts : Int) :
    ((genBaseMetricsStart gb (some b) ts).buf =
      some (if gb.tsSuffixBuf = "" then b
        else b ++ gb.dtimeMetric ++ formatSeconds6 (ts - gb.lastTs) ++
          tsSuffix ts)) ∧
    ((genBaseMetricsStart gb (some b) ts).metricsCount =
      if gb.tsSuffixBuf = "" then 0 else 1) ∧
    (genBaseMetricsStart gb (some b) ts).state.tsSuffixBuf = tsSuffix ts ∧
    (genBaseMetricsStart gb (some b) ts).state.lastTs = ts ∧
    (genBaseMetricsStart gb (some b) ts).state.dtimeMetric =
      gb.dtimeMetric ∧
    (genBaseMetricsStart gb (some b) ts).returnedLastTs = gb.lastTs := by
  unfold genBaseMetricsStart
  by_cases h : gb.tsSuffixBuf = ""
  · have hl : ¬gb.tsSuffixBuf.length > 0 := by
      rw [h]
      decide
    simp [h, hl]
  · have hl : gb.tsSuffixBuf.length > 0 := by
      rcases Nat.eq_zero_or_pos gb.tsSuffixBuf.length with h0 | h0
      · exact absurd ((string_length_eq_zero_iff _).mp h0) h
      · exact h0
    simp [h, hl]

/-- The deadline-hack loop, characterized: the result is the start value
plus one interval per addition; it is never before the stored `nextTs`;
and when at least one addition was made, one fewer interval would still be
before the stored value (the loop stops as soon as possible). -/
theorem deadlineHackLoop_spec (interval taskNextTs nextTs : Int)
    (h : 0 < interval) :
    (deadlineHackLoop interval taskNextTs nextTs).1 =
      nextTs +
        ((deadlineHackLoop interval taskNextTs nextTs).2 : Int) * interval ∧
    taskNextTs ≤ (deadlineHackLoop interval taskNextTs nextTs).1 ∧
    (0 < (deadlineHackLoop interval taskNextTs nextTs).2 →
      (deadlineHackLoop interval taskNextTs nextTs).1 - interval <
        taskNextTs) := by
  refine deadlineHackLoop.induct interval taskNextTs
    (fun n =>
      (deadlineHackLoop interval taskNextTs n).1 =
        n + ((deadlineHackLoop interval taskNextTs n).2 : Int) * interval ∧
      taskNextTs ≤ (deadlineHackLoop interval taskNextTs n).1 ∧
      (0 < (deadlineHackLoop interval taskNextTs n).2 →
        (deadlineHackLoop interval taskNextTs n).1 - interval < taskNextTs))
    (fun x hx ih => ?_) (fun x hx => ?_) nextTs
  · dsimp only at ih ⊢
    have he : deadlineHackLoop interval taskNextTs x =
        ((deadlineHackLoop interval taskNextTs (x + interval)).1,
          (deadlineHackLoop interval taskNextTs (x + interval)).2 + 1) := by
      rw [deadlineHackLoop.eq_def, dif_pos hx]
    rw [he]
    obtain ⟨ih1, ih2, ih3⟩ := ih
    refine ⟨?_, ih2, ?_⟩
    · rw [ih1]
      push_cast
      ring
    · intro _
      by_cases hk : 0 < (deadlineHackLoop interval taskNextTs
          (x + interval)).2
      · exact ih3 hk
      · have hk0 : (deadlineHackLoop interval taskNextTs
            (x + interval)).2 = 0 := by omega
        rw [ih1, hk0]
        push_cast
        omega
  · dsimp only
    have he : deadlineHackLoop interval taskNextTs x = (x, 0) := by
      rw [deadlineHackLoop.eq_def, dif_neg hx]
    rw [he]
    push_neg at hx
    exact ⟨by push_cast; ring, hx h, by omega⟩

/-- C3 counterexample: a re-added task processed at `timeNow = 5 ms` with
`interval = 40 ms` and stored `nextTs = 120 ms` needs two interval
additions (40 → 80 → 120 ms), but the dispatcher increments the
deadline-hack count only once per processing (`nextTsTweaked` is a
boolean), not once per addition. -/
theorem dispatcher_hack_count_counterexample :
    (dispatchReAdded 5000000 120000000 40000000 0 0 0).additions = 2 ∧
    ¬((dispatchReAdded 5000000 120000000 40000000 0 0 0).hackCount =
      0 + (dispatchReAdded 5000000 120000000 40000000 0 0 0).additions) := by
  have e : deadlineHackLoop 40000000 120000000 40000000 = (120000000, 2) := by
    rw [deadlineHackLoop.eq_def]
    norm_num
    rw [deadlineHackLoop.eq_def]
    norm_num
    rw [deadlineHackLoop.eq_def]
    norm_num
  have hstep : dispatchReAdded 5000000 120000000 40000000 0 0 0 =
      { nextTs := 120000000, hackCount := 1, delayedCount := 0,
        additions := 2 } := by
    unfold dispatchReAdded
    dsimp only
    rw [show timeTruncate 5000000 40000000 + 40000000 = (40000000 : Int)
      from by norm_num [timeTruncate], e]
    norm_num [SCHEDULER_TASK_MIN_EXECUTION_PAUSE, SCHEDULER_GRANULARITY]
  rw [hstep]
  norm_num

/-- C3 (amended): for a worker-re-added task with computed next time
`nextTs0` strictly before the stored `task.nextTs`, the dispatcher adds
`interval` repeatedly until the time is no longer before the stored value
(and stops as soon as that holds); the deadline-hack counter is
incremented by one per task processing in which at least one addition was
made — not by one per addition; and the resulting scheduling time is the
hacked time floored at `lastExecuted` plus the minimum pause. -/
theorem dispatchReAdded_spec (timeNow taskNextTs interval lastExecuted : Int)
    (hackCount delayedCount : Nat) (h : 0 < interval) :
    taskNextTs ≤ timeTruncate timeNow interval + interval +
      ((dispatchReAdded timeNow taskNextTs interval lastExecuted hackCount
        delayedCount).additions : Int) * interval ∧
    (0 < (dispatchReAdded timeNow taskNextTs interval lastExecuted hackCount
        delayedCount).additions →
      timeTruncate timeNow interval + interval +
        ((dispatchReAdded timeNow taskNextTs interval lastExecuted hackCount
          delayedCount).additions : Int) * interval - interval < taskNextTs) ∧
    ((dispatchReAdded timeNow taskNextTs interval lastExecuted hackCount
        delayedCount).additions = 0 ↔
      taskNextTs ≤ timeTruncate timeNow interval + interval) ∧
    (dispatchReAdded timeNow taskNextTs interval lastExecuted hackCount
        delayedCount).hackCount = hackCount +
      (if 0 < (dispatchReAdded timeNow taskNextTs interval lastExecuted
        hackCount delayedCount).additions then 1 else 0) ∧
    (dispatchReAdded timeNow taskNextTs interval lastExecuted hackCount
        delayedCount).delayedCount = delayedCount +
      (if timeTruncate timeNow interval + interval +
          ((dispatchReAdded timeNow taskNextTs interval lastExecuted
            hackCount delayedCount).additions : Int) * interval <
          lastExecuted + SCHEDULER_TASK_MIN_EXECUTION_PAUSE then 1 else 0) ∧
    (dispatchReAdded timeNow taskNextTs interval lastExecuted hackCount
        delayedCount).nextTs =
      max (lastExecuted + SCHEDULER_TASK_MIN_EXECUTION_PAUSE)
        (timeTruncate timeNow interval + interval +
          ((dispatchReAdded timeNow taskNextTs interval lastExecuted
            hackCount delayedCount).additions : Int) * interval) := by
  set nextTs0 : Int := timeTruncate timeNow interval + interval with hn0
  set r : DispatchReAddedResult := dispatchReAdded timeNow taskNextTs
    interval lastExecuted hackCount delayedCount with hr
  obtain ⟨l1, l2, l3⟩ := deadlineHackLoop_spec interval taskNextTs nextTs0 h
  have hadd : (r.additions : Nat) =
      (deadlineHackLoop interval taskNextTs nextTs0).2 := rfl
  have hv : (deadlineHackLoop interval taskNextTs nextTs0).1 =
      nextTs0 + (r.additions : Int) * interval := by
    rw [hadd]
    exact l1
  refine ⟨?_, ?_, ?_, ?_, ?_, ?_⟩
  · rw [← hv]
    exact l2
  · intro hk
    rw [← hv]
    exact l3 (by rw [← hadd]; exact hk)
  · constructor
    · intro h0
      have := l2
      rw [hv, h0] at this
      simpa using this
    · intro hle
      by_contra hne
      have hk : 0 < (deadlineHackLoop interval taskNextTs nextTs0).2 := by
        rw [← hadd]
        omega
      have := l3 hk
      rw [hv] at this
      have hge1 : (1 : Int) ≤ (r.additions : Int) := by
        rw [hadd] at *
        exact_mod_cast hk
      nlinarith
  · show hackCount + (if (deadlineHackLoop interval taskNextTs nextTs0).2 > 0
        then 1 else 0) = _
    rw [hadd]
  · show delayedCount + (if (deadlineHackLoop interval taskNextTs nextTs0).1 <
        lastExecuted + SCHEDULER_TASK_MIN_EXECUTION_PAUSE then 1 else 0) = _
    rw [hv]
  · show (if (deadlineHackLoop interval taskNextTs nextTs0).1 <
        lastExecuted + SCHEDULER_TASK_MIN_EXECUTION_PAUSE
      then lastExecuted + SCHEDULER_TASK_MIN_EXECUTION_PAUSE
      else (deadlineHackLoop interval taskNextTs nextTs0).1) = _
    rw [hv, max_def]
    split_ifs <;> omega

/-- C3 witness: the amended dispatcher description at the concrete
counterexample input (two additions, one hack-count increment). -/
theorem dispatchReAdded_spec_witness :
    (120000000 : Int) ≤ timeTruncate 5000000 40000000 + 40000000 +
      ((dispatchReAdded 5000000 120000000 40000000 0 0 0).additions : Int) *
        40000000 ∧
    (0 < (dispatchReAdded 5000000 120000000 40000000 0 0 0).additions →
      timeTruncate 5000000 40000000 + 40000000 +
        ((dispatchReAdded 5000000 120000000 40000000 0 0 0).additions : Int) *
          40000000 - 40000000 < 120000000) ∧
    ((dispatchReAdded 5000000 120000000 40000000 0 0 0).additions = 0 ↔
      (120000000 : Int) ≤ timeTruncate 5000000 40000000 + 40000000) ∧
    (dispatchReAdded 5000000 120000000 40000000 0 0 0).hackCount = 0 +
      (if 0 < (dispatchReAdded 5000000 120000000 40000000 0 0 0).additions
        then 1 else 0) ∧
    (dispatchReAdded 5000000 120000000 40000000 0 0 0).delayedCount = 0 +
      (if timeTruncate 5000000 40000000 + 40000000 +
          ((dispatchReAdded 5000000 120000000 40000000 0 0 0).additions :
            Int) * 40000000 <
          0 + SCHEDULER_TASK_MIN_EXECUTION_PAUSE then 1 else 0) ∧
    (dispatchReAdded 5000000 120000000 40000000 0 0 0).nextTs =
      max (0 + SCHEDULER_TASK_MIN_EXECUTION_PAUSE)
        (timeTruncate 5000000 40000000 + 40000000 +
          ((dispatchReAdded 5000000 120000000 40000000 0 0 0).additions :
            Int) * 40000000) :=
  dispatchReAdded_spec 5000000 120000000 40000000 0 0 0 (by norm_num)

/-- Rotating a member to the tail preserves list membership. -/
theorem mem_erase_append_singleton (l : List Nat) (hl : l.Nodup) (i : Nat)
    (hi : i ∈ l) (j : Nat) : j ∈ l.erase i ++ [i] ↔ j ∈ l := by
  rw [List.mem_append, List.mem_singleton, hl.mem_erase_iff]
  by_cases hij : j = i
  · subst hij
    simp [hi]
  · simp [hij]

/-- `MoveToHealthy` applied from left to right to a pool of fresh
endpoints: the healthy list grows by the processed identities, the
`healthy` flags are set accordingly, probes and the shutdown flag stay
untouched. -/
theorem foldl_moveToHealthy (l : List Nat) (p : PoolState) (hl : l.Nodup)
    (hp : ∀ i ∈ l, (p.eps i).healthy = false) :
    (l.foldl moveToHealthyOp p).healthyList = p.healthyList ++ l ∧
    (∀ i, ((l.foldl moveToHealthyOp p).eps i).healthy =
      ((p.eps i).healthy || decide (i ∈ l))) ∧
    (l.foldl moveToHealthyOp p).probes = p.probes ∧
    (l.foldl moveToHealthyOp p).shutdown = p.shutdown := by
  induction l generalizing p with
  | nil => simp
  | cons j t ih =>
    have hj : (p.eps j).healthy = false := hp j (by simp)
    have hstep : moveToHealthyOp p j =
        { p with
          eps := Function.update p.eps j
            { p.eps j with healthy := true, numErrors := 0 }
          healthyList := p.healthyList ++ [j] } := by
      unfold moveToHealthyOp
      rw [if_neg (by simp [hj])]
    rw [List.foldl_cons, hstep]
    obtain ⟨hl1, hl2⟩ := List.nodup_cons.mp hl
    obtain ⟨ih1, ih2, ih3, ih4⟩ := ih
      { p with
        eps := Function.update p.eps j
          { p.eps j with healthy := true, numErrors := 0 }
        healthyList := p.healthyList ++ [j] }
      hl2 (fun i hi => by
        have hij : i ≠ j := fun hcon => hl1 (hcon ▸ hi)
        dsimp only
        rw [Function.update_apply, if_neg hij]
        exact hp i (List.mem_cons_of_mem _ hi))
    refine ⟨?_, ?_, ih3, ih4⟩
    · rw [ih1]
      simp
    · intro i
      rw [ih2 i]
      dsimp only
      rw [Function.update_apply]
      by_cases hij : i = j
      · subst hij
        rw [if_pos rfl]
        simp
      · rw [if_neg hij]
        simp [List.mem_cons, hij]

/-- The pool built by `NewHttpEndpointPool` for distinct endpoints `D` is
well-formed: all of `D` healthy, no probes. -/
theorem poolWF_init (thr : Nat → Nat) (D : List Nat) (hD : D.Nodup) :
    PoolWF D (initPool thr D) := by
  obtain ⟨h1, h2, h3, h4⟩ :=
    foldl_moveToHealthy D (emptyPool thr) hD (fun i _ => rfl)
  unfold initPool at *
  refine ⟨?_, ?_, ?_, ?_, ?_, ?_⟩
  · rw [h1]
    simpa [emptyPool] using hD
  · intro i
    rw [h1, h2 i]
    simp [emptyPool]
  · intro i hi
    rw [h1] at hi
    simpa [emptyPool] using hi
  · rw [h4]
    rfl
  · intro i hi
    left
    refine ⟨by rw [h1]; simpa [emptyPool] using hi, ?_⟩
    rw [h3]
    rfl
  · intro i _
    rw [h3]
    rfl

/-- `ReportError` on a pool endpoint preserves pool well-formedness (the
pool not being shut down, the spawned probe — if any — becomes the sole
owner of the endpoint it removes from the healthy list). -/
theorem poolWF_reportError (D : List Nat) (p : PoolState) (i : Nat)
    (hWF : PoolWF D p) (hi : i ∈ D) : PoolWF D (reportErrorOp p i) := by
  obtain ⟨hnd, hmem, hsub, hshut, hxor, hout⟩ := hWF
  unfold reportErrorOp
  dsimp only
  split_ifs with h1 h2 h3 h4
  · -- healthy, below threshold, more than one healthy: rotate to tail
    have hon : i ∈ p.healthyList := (hmem i).mpr h1
    have hrot := mem_erase_append_singleton p.healthyList hnd i hon
    refine ⟨?_, ?_, ?_, hshut, ?_, hout⟩
    · rw [List.nodup_append]
      refine ⟨hnd.erase i, List.nodup_singleton i, ?_⟩
      intro a ha hb
      rw [List.mem_singleton] at hb
      subst hb
      exact ((hnd.mem_erase_iff).mp ha).1 rfl
    · intro j
      rw [hrot j]
      dsimp only
      rw [Function.update_apply]
      by_cases hij : j = i
      · subst hij
        rw [if_pos rfl]
        exact hmem j
      · rw [if_neg hij]
        exact hmem j
    · intro j hj
      exact hsub j ((hrot j).mp hj)
    · intro j hj
      rcases hxor j hj with ⟨ha, hb⟩ | ⟨ha, hb⟩
      · exact Or.inl ⟨(hrot j).mpr ha, hb⟩
      · exact Or.inr ⟨fun hcon => ha ((hrot j).mp hcon), hb⟩
  · -- healthy, below threshold, single healthy endpoint: no rotation
    refine ⟨hnd, ?_, hsub, hshut, hxor, hout⟩
    intro j
    dsimp only
    rw [Function.update_apply]
    by_cases hij : j = i
    · subst hij
      rw [if_pos rfl]
      exact hmem j
    · rw [if_neg hij]
      exact hmem j
  · -- threshold reached during shutdown: excluded by well-formedness
    rw [hshut] at h4
    simp at h4
  · -- threshold reached, pool running: unhealth and spawn the probe
    have hon : i ∈ p.healthyList := (hmem i).mpr h1
    have hprobe0 : p.probes i = 0 := by
      rcases hxor i hi with ⟨_, hb⟩ | ⟨ha, _⟩
      · exact hb
      · exact absurd hon ha
    refine ⟨hnd.erase i, ?_, ?_, hshut, ?_, ?_⟩
    · intro j
      dsimp only
      rw [hnd.mem_erase_iff, Function.update_apply, Function.update_apply]
      by_cases hij : j = i
      · subst hij
        simp
      · rw [if_neg hij, if_neg hij]
        simp [hij, hmem j]
    · intro j hj
      exact hsub j ((hnd.mem_erase_iff).mp hj).2
    · intro j hj
      dsimp only [HealthyXorProbed]
      by_cases hij : j = i
      · subst hij
        refine Or.inr ⟨?_, ?_⟩
        · rw [hnd.mem_erase_iff]
          simp
        · dsimp only
          rw [Function.update_same, hprobe0]
      · rcases hxor j hj with ⟨ha, hb⟩ | ⟨ha, hb⟩
        · refine Or.inl ⟨?_, ?_⟩
          · rw [hnd.mem_erase_iff]
            exact ⟨hij, ha⟩
          · dsimp only
            rw [Function.update_noteq hij]
            exact hb
        · refine Or.inr ⟨?_, ?_⟩
          · rw [hnd.mem_erase_iff]
            intro hcon
            exact ha hcon.2
          · dsimp only
            rw [Function.update_noteq hij]
            exact hb
    · intro j hj
      dsimp only
      rw [Function.update_noteq (fun hcon => hj (by rw [hcon]; exact hi))]
      exact hout j hj
  · -- already unhealthy: only the error count changes
    refine ⟨hnd, ?_, hsub, hshut, hxor, hout⟩
    intro j
    dsimp only
    rw [Function.update_apply]
    by_cases hij : j = i
    · subst hij
      rw [if_pos rfl]
      exact hmem j
    · rw [if_neg hij]
      exact hmem j

/-- A successful health probe (which re-adds its endpoint via
`MoveToHealthy` and terminates) preserves pool well-formedness. -/
theorem poolWF_probeSuccess (D : List Nat) (p : PoolState) (i : Nat)
    (hWF : PoolWF D p) (hi : i ∈ D) (hlive : p.probes i = 1) :
    PoolWF D (probeSuccessOp p i) := by
  obtain ⟨hnd, hmem, hsub, hshut, hxor, hout⟩ := hWF
  have hoff : i ∉ p.healthyList := by
    rcases hxor i hi with ⟨_, hb⟩ | ⟨ha, _⟩
    · rw [hlive] at hb
      exact absurd hb (by norm_num)
    · exact ha
  have hunhealthy : (p.eps i).healthy = false := by
    by_contra hcon
    exact hoff ((hmem i).mpr (by
      cases hcl : (p.eps i).healthy
      · exact absurd hcl hcon
      · rfl))
  have hstep : moveToHealthyOp p i =
      { p with
        eps := Function.update p.eps i
          { p.eps i with healthy := true, numErrors := 0 }
        healthyList := p.healthyList ++ [i] } := by
    unfold moveToHealthyOp
    rw [if_neg (by simp [hunhealthy])]
  unfold probeSuccessOp
  rw [hstep]
  dsimp only
  refine ⟨?_, ?_, ?_, hshut, ?_, ?_⟩
  · rw [List.nodup_append]
    exact ⟨hnd, List.nodup_singleton i, by
      intro a ha hb
      rw [List.mem_singleton] at hb
      subst hb
      exact hoff ha⟩
  · intro j
    dsimp only
    rw [List.mem_append, List.mem_singleton, Function.update_apply]
    by_cases hij : j = i
    · subst hij
      simp
    · rw [if_neg hij]
      simp [hij, hmem j]
  · intro j hj
    dsimp only at hj
    rw [List.mem_append, List.mem_singleton] at hj
    rcases hj with hj | hj
    · exact hsub j hj
    · subst hj
      exact hi
  · intro j hj
    dsimp only [HealthyXorProbed]
    by_cases hij : j = i
    · subst hij
      refine Or.inl ⟨by simp, ?_⟩
      rw [Function.update_same, hlive]
    · rcases hxor j hj with ⟨ha, hb⟩ | ⟨ha, hb⟩
      · refine Or.inl ⟨by simp [ha], ?_⟩
        rw [Function.update_noteq hij]
        exact hb
      · refine Or.inr ⟨?_, ?_⟩
        · rw [List.mem_append, List.mem_singleton]
          push_neg
          exact ⟨ha, hij⟩
        · rw [Function.update_noteq hij]
          exact hb
  · intro j hj
    dsimp only
    rw [Function.update_noteq (fun hcon => hj (by rw [hcon]; exact hi))]
    exact hout j hj

/-- Every pool state reachable while the pool is running is
well-formed. -/
theorem poolReach_wf (thr : Nat → Nat) (D : List Nat) (hD : D.Nodup)
    (p : PoolState) (h : PoolReach thr D p) : PoolWF D p := by
  induction h with
  | init => exact poolWF_init thr D hD
  | reportError i hi _ ih => exact poolWF_reportError D _ i ih hi
  | probeSuccess i hi hlive _ ih => exact poolWF_probeSuccess D _ i ih hi hlive

/-- C9 counterexample: start from a pool with one endpoint (threshold 1);
once `Shutdown` has marked the pool as shutting down, `ReportError`
removes the endpoint from the healthy list but — because of the
`!epPool.shutdown` guard — spawns no health probe, leaving the endpoint
neither on the healthy list nor owned by a probe, contradicting the
claimed "never neither ... including while the pool is shutting down". -/
theorem reportError_during_shutdown_counterexample :
    ¬HealthyXorProbed
      (reportErrorOp (shutdownOp (initPool (fun _ => 1) [0])) 0) 0 := by
  have hinit : initPool (fun _ => 1) [0] =
      { eps := Function.update (emptyPool (fun _ => 1)).eps 0
          { healthy := true, numErrors := 0, markUnhealthyThreshold := 1 }
        healthyList := [0]
        probes := fun _ => 0
        shutdown := false } := by
    unfold initPool emptyPool
    rw [List.foldl_cons, List.foldl_nil]
    unfold moveToHealthyOp
    rw [if_neg (by simp)]
    rfl
  rw [hinit]
  unfold shutdownOp reportErrorOp HealthyXorProbed
  simp [Function.update_apply, emptyPool]

/-- C9 (amended): after every sequence of `ReportError` and
health-probe-completion operations on a pool of distinct endpoints
starting from its initial state — the pool not having been shut down —
every pool endpoint is either on the healthy list with no health-probe
owner or off it with exactly one probe owner, never both and never
neither.  (Once shutdown has begun the guard `!epPool.shutdown`
suppresses probe spawning and an endpoint can be neither, see the
counterexample.) -/
theorem endpoint_healthy_xor_probed (thr : Nat → Nat) (D : List Nat)
    (hD : D.Nodup) (p : PoolState) (hreach : PoolReach thr D p) (i : Nat)
    (hi : i ∈ D) : HealthyXorProbed p i :=
  (poolReach_wf thr D hD p hreach).xor_inv i hi

/-- C9 witness: the invariant at the freshly built single-endpoint
pool. -/
theorem endpoint_healthy_xor_probed_witness :
    HealthyXorProbed (initPool (fun _ => 1) [0]) 0 :=
  endpoint_healthy_xor_probed (fun _ => 1) [0] (by simp) _ PoolReach.init 0
    (by simp)

/-- C6 counterexample: with `batch_target_size = 3`, after a batch of 64
raw bytes compressed to 128 bytes the code's own update rule turns the
initial compression factor 2 into `0.2·(64/128) + 0.8·2 = 1.7` (third
conjunct) and stores the limit `int(3 · 1.7) = 5` (fourth conjunct); in
the next round an empty batch receiving a 5-byte buffer is closed and
submitted at once (first conjunct), although the raw count 5 has not
reached `CF · batch_target_size = 5.1` (second conjunct) — the size
trigger is the truncated `int(CF · batch_target_size)`, not
`CF · batch_target_size` itself as claimed. -/
theorem compressor_sends_below_cf_target_counterexample :
    ((compressorStep ⟨3, true⟩
        { batchReadCount := 0, batchReadByteCount := 0,
          batchTimeoutCount := 0, timerSet := false, gzWriterLive := true,
          estimatedCF := 17 / 10, batchReadByteLimit := 5, isOpen := true,
          stats := ⟨1, 64, 1, 128, 0, 0, 0, 17 / 10⟩ }
        (.recv 5 false) 0 false).2 = true) ∧
    (((5 : Nat) : ℚ) < (17 / 10 : ℚ) * 3) ∧
    ((1 - COMPRESSION_FACTOR_EXP_DECAY_ALPHA) * ((64 : ℚ) / 128) +
      COMPRESSION_FACTOR_EXP_DECAY_ALPHA * INITIAL_COMPRESSION_FACTOR =
        17 / 10) ∧
    ratTruncToInt ((3 : ℚ) * (17 / 10)) = 5 := by
  refine ⟨?_, by norm_num, ?_, ?_⟩
  · decide
  · unfold COMPRESSION_FACTOR_EXP_DECAY_ALPHA INITIAL_COMPRESSION_FACTOR
    norm_num
  · unfold ratTruncToInt
    rw [if_neg (by norm_num)]
    norm_num

/-- C6 (amended): in a compressor loop round with a batch that has not
yet met its size trigger, the batch is closed (gzip writer closed) and
submitted to the sender exactly when one of the following first holds:
the accumulated raw byte count reaches the stored limit
`int(CF · batch_target_size)` (the integer truncation of the projected
target, which the code recomputes at qualifying batch ends), the flush
timer fires, or the input channel is closed with at least one buffer
accumulated; and the timeout-flush count increments exactly on the
timer-fire submissions. -/
theorem compressorStep_batch_end_iff (cfg : CompressorConfig)
    (s : CompressorState) (e : CompressorEvent) (gzLen : Nat)
    (sendErr : Bool)
    (hlim : (s.batchReadByteCount : Int) < s.batchReadByteLimit)
    (htc : s.batchTimeoutCount = 0) :
    ((compressorStep cfg s e gzLen sendErr).2 = true ↔
      (e = .timerFire ∨
        (e = .closed ∧ 0 < s.batchReadByteCount) ∨
        (∃ bufLen, e = .recv bufLen false ∧ 0 < bufLen ∧
          s.batchReadByteLimit ≤
            (s.batchReadByteCount : Int) + (bufLen : Int)))) ∧
    (compressorStep cfg s e gzLen sendErr).1.stats.timeoutFlushCount =
      s.stats.timeoutFlushCount + (if e = .timerFire then 1 else 0) := by
  have hcount : (0 : Int) ≤ (s.batchReadByteCount : Int) := by positivity
  cases e with
  | timerFire =>
    unfold compressorStep
    dsimp only
    rw [if_pos rfl]
    constructor
    · simp
    · split_ifs <;> simp_all
  | closed =>
    unfold compressorStep
    dsimp only
    by_cases hc : 0 < s.batchReadByteCount
    · rw [if_pos (by simp [hc])]
      constructor
      · simp [hc]
      · split_ifs <;> simp_all
    · rw [if_neg (by
        simp only [decide_eq_true_eq]
        push_neg
        exact ⟨by omega, by omega⟩)]
      constructor
      · simp [hc]
      · simp
  | recv bufLen writeErr =>
    unfold compressorStep
    dsimp only
    by_cases hb : 0 < bufLen
    · rw [if_pos hb]
      by_cases hbc : s.batchReadCount = 0
      case pos =>
        rw [if_pos hbc]
        dsimp only
        cases writeErr with
        | true =>
          simp only [eq_self_iff_true, if_true]
          rw [if_neg (by
            simp only [decide_eq_true_eq]
            push_neg
            omega)]
          constructor
          · simp
          · simp
        | false =>
          simp only [Bool.false_eq_true, if_false]
          by_cases hd : s.batchReadByteLimit ≤
              ((s.batchReadByteCount + bufLen : Nat) : Int)
          · rw [if_pos (by simpa using hd)]
            constructor
            · simp only [true_iff]
              refine Or.inr (Or.inr ⟨bufLen, rfl, hb, ?_⟩)
              push_cast at hd ⊢
              omega
            · split_ifs <;> simp_all
          · rw [if_neg (by simpa using hd)]
            constructor
            · simp only [Bool.false_eq_true, false_iff]
              push_neg
              refine ⟨by simp, by simp, ?_⟩
              intro bufLen' heq hb'
              obtain rfl : bufLen = bufLen' :=
                ((CompressorEvent.recv.injEq _ _ _ _).mp heq).1
              push_cast at hd ⊢
              omega
            · simp
      case neg =>
        rw [if_neg hbc]
        cases writeErr with
        | true =>
          simp only [eq_self_iff_true, if_true]
          rw [if_neg (by
            simp only [decide_eq_true_eq]
            push_neg
            omega)]
          constructor
          · simp
          · simp
        | false =>
          simp only [Bool.false_eq_true, if_false]
          by_cases hd : s.batchReadByteLimit ≤
              ((s.batchReadByteCount + bufLen : Nat) : Int)
          · rw [if_pos (by simpa using hd)]
            constructor
            · simp only [true_iff]
              refine Or.inr (Or.inr ⟨bufLen, rfl, hb, ?_⟩)
              push_cast at hd ⊢
              omega
            · split_ifs <;> simp_all
          · rw [if_neg (by simpa using hd)]
            constructor
            · simp only [Bool.false_eq_true, false_iff]
              push_neg
              refine ⟨by simp, by simp, ?_⟩
              intro bufLen' heq hb'
              obtain rfl : bufLen = bufLen' :=
                ((CompressorEvent.recv.injEq _ _ _ _).mp heq).1
              push_cast at hd ⊢
              omega
            · simp
    · rw [if_neg hb]
      rw [if_neg (by
        simp only [decide_eq_true_eq]
        push_neg
        omega)]
      constructor
      · simp only [Bool.false_eq_true, false_iff]
        push_neg
        refine ⟨by simp, by simp, ?_⟩
        intro bufLen' heq hb'
        obtain rfl : bufLen = bufLen' :=
          ((CompressorEvent.recv.injEq _ _ _ _).mp heq).1
        exact absurd hb' (by omega)
      · simp

/-- C6 witness: the batch-end characterization at a fresh compressor
(limit `int(3·2) = 6`) receiving a single 7-byte buffer, which meets the
size trigger at once. -/
theorem compressorStep_batch_end_iff_witness :
    ((compressorStep ⟨3, true⟩
        (compressorInit ⟨3, true⟩ false ⟨0, 0, 0, 0, 0, 0, 0, 2⟩)
        (.recv 7 false) 200 false).2 = true ↔
      ((CompressorEvent.recv 7 false) = .timerFire ∨
        ((CompressorEvent.recv 7 false) = .closed ∧
          0 < (compressorInit ⟨3, true⟩ false
            ⟨0, 0, 0, 0, 0, 0, 0, 2⟩).batchReadByteCount) ∨
        (∃ bufLen, (CompressorEvent.recv 7 false) = .recv bufLen false ∧
          0 < bufLen ∧
          (compressorInit ⟨3, true⟩ false
              ⟨0, 0, 0, 0, 0, 0, 0, 2⟩).batchReadByteLimit ≤
            ((compressorInit ⟨3, true⟩ false
              ⟨0, 0, 0, 0, 0, 0, 0, 2⟩).batchReadByteCount : Int) +
              (bufLen : Int)))) ∧
    (compressorStep ⟨3, true⟩
        (compressorInit ⟨3, true⟩ false ⟨0, 0, 0, 0, 0, 0, 0, 2⟩)
        (.recv 7 false) 200 false).1.stats.timeoutFlushCount =
      (compressorInit ⟨3, true⟩ false
          ⟨0, 0, 0, 0, 0, 0, 0, 2⟩).stats.timeoutFlushCount +
        (if (CompressorEvent.recv 7 false) = .timerFire then 1 else 0) :=
  compressorStep_batch_end_iff ⟨3, true⟩
    (compressorInit ⟨3, true⟩ false ⟨0, 0, 0, 0, 0, 0, 0, 2⟩)
    (.recv 7 false) 200 false
    (by
      show ((0 : Nat) : Int) <
        ratTruncToInt ((3 : ℚ) * INITIAL_COMPRESSION_FACTOR)
      unfold ratTruncToInt INITIAL_COMPRESSION_FACTOR
      rw [if_neg (by norm_num)]
      norm_num)
    rfl

end VmiInternal
